import Mathlib

/-!
Verification of the Zephyrus backend session/file store, action extractor and
websocket dispatch loop.  The Python sources (`session_manager.py`,
`actions/edit_actions.py`, `websocket_handlers.py`) are shallowly embedded:
Python strings become `String` (operated on through their `List Char` data),
dicts become association lists with insertion-order update semantics, and
`datetime.now()` values are passed as explicit parameters.
-/

/-- Python `str.split(sep)` for a one-character separator. -/
def pySplitChar (sep : Char) : List Char → List (List Char)
  | [] => [[]]
  | c :: rest =>
    match pySplitChar sep rest with
    | [] => [[]]
    | s :: ss => if c = sep then [] :: s :: ss else (c :: s) :: ss

/-- Python `os.path.basename`: the segment after the last `/`. -/
def pyBasename (l : List Char) : List Char :=
  l.foldl (fun acc c => if c = '/' then [] else acc ++ [c]) []

/-- Python `s.replace(".sol", "")`: delete every (left-to-right,
non-overlapping) occurrence of `.sol`. -/
def pyRemoveSol : List Char → List Char
  | c1 :: c2 :: c3 :: c4 :: rest =>
    if c1 = '.' ∧ c2 = 's' ∧ c3 = 'o' ∧ c4 = 'l' then pyRemoveSol rest
    else c1 :: pyRemoveSol (c2 :: c3 :: c4 :: rest)
  | c :: rest => c :: pyRemoveSol rest
  | [] => []

/-- Python `s.split("_")[0]`: the characters before the first underscore. -/
def beforeUnderscore (l : List Char) : List Char :=
  l.takeWhile (fun c => c ≠ '_')

/-- Python `s.strip()`. -/
def pyStrip (l : List Char) : List Char :=
  ((l.dropWhile Char.isWhitespace).reverse.dropWhile Char.isWhitespace).reverse

/-- Python `pat in s` substring containment. -/
def pyContains (pat : List Char) : List Char → Bool
  | [] => pat.isEmpty
  | c :: rest => pat.isPrefixOf (c :: rest) || pyContains pat rest

/-- The canonical-name computation of `Chat.add_virtual_file` /
`get_virtual_file` / `delete_virtual_file` (session_manager.py lines 48-49):
`os.path.basename(path).replace(".sol", "").split("_")[0] + ".sol"`. -/
def canonicalName (path : String) : String :=
  String.mk (beforeUnderscore (pyRemoveSol (pyBasename path.data)) ++ ".sol".data)

/-- Decimal digit characters, as Python's f-string renders nonnegative ints. -/
def digitChar : Nat → Char
  | 0 => '0' | 1 => '1' | 2 => '2' | 3 => '3' | 4 => '4'
  | 5 => '5' | 6 => '6' | 7 => '7' | 8 => '8' | _ => '9'

/-- Fuel-indexed decimal rendering: prepend the digits of `n` to `acc`.  The
fuel only bounds the recursion depth; `natDigits` always supplies enough. -/
def natDigitsAux : Nat → Nat → List Char → List Char
  | 0, _, acc => acc
  | fuel + 1, n, acc =>
    if n < 10 then digitChar n :: acc
    else natDigitsAux fuel (n / 10) (digitChar (n % 10) :: acc)

/-- Decimal rendering of a natural number, as Python's `f"{n}"`. -/
def natDigits (n : Nat) : List Char := natDigitsAux (n + 1) n []

/-- The path synthesized for a create action
(edit_actions.py line 63: `f"contracts/Contract_{len(actions)}.sol"`). -/
def synthPath (k : Nat) : String :=
  String.mk ("contracts/Contract_".data ++ natDigits k ++ ".sol".data)

/-- Python dict lookup (`d.get(k)`), on an association list. -/
def dictGet (d : List (String × α)) (k : String) : Option α :=
  match d with
  | [] => none
  | (k', v) :: rest => if k' = k then some v else dictGet rest k

/-- Python dict write (`d[k] = v`): update in place, else append at the end. -/
def dictSet (d : List (String × α)) (k : String) (v : α) : List (String × α) :=
  match d with
  | [] => [(k, v)]
  | (k', v') :: rest => if k' = k then (k, v) :: rest else (k', v') :: dictSet rest k v

/-- Python dict deletion (`del d[k]`), a no-op when the key is absent. -/
def dictDel (d : List (String × α)) (k : String) : List (String × α) :=
  match d with
  | [] => []
  | (k', v') :: rest => if k' = k then rest else (k', v') :: dictDel rest k

/-- In-place mutation of the value found by a lookup. -/
def dictUpdate (d : List (String × α)) (k : String) (f : α → α) : List (String × α) :=
  match d with
  | [] => []
  | (k', v') :: rest => if k' = k then (k', f v') :: rest else (k', v') :: dictUpdate rest k f

/-- A current virtual-file version: `{content, language, timestamp}`
(timestamp is `datetime.now().timestamp() * 1000`, modelled as `Nat`). -/
structure FileVersion where
  content : String
  language : String
  timestamp : Nat
  deriving Repr, DecidableEq

/-- A version-history entry: `{content, timestamp}`. -/
structure HistEntry where
  content : String
  timestamp : Nat
  deriving Repr, DecidableEq

/-- A chat message as a loosely-typed dict with the fields the code inspects.
A missing key is `none`. -/
structure Msg where
  text : Option String
  sender : Option String
  timestamp : Option String
  deriving Repr, DecidableEq

/-- The `chat.metadata` dict written by `clean_user_cache`. -/
structure ChatMeta where
  last_cleaned : Option String
  connection_state : Option String
  deriving Repr, DecidableEq

/-- The `Chat` object of session_manager.py. -/
structure Chat where
  chat_id : String
  name : String
  wallet_address : String
  created_at : String
  last_accessed : String
  messages : List Msg
  virtual_files : List (String × FileVersion)
  virtual_file_history : List (String × List HistEntry)
  metadata : ChatMeta
  deriving Repr, DecidableEq

/-- `Chat.__init__`. -/
def Chat.init (chat_id name wallet_address nowIso : String) : Chat :=
  { chat_id := chat_id, name := name, wallet_address := wallet_address,
    created_at := nowIso, last_accessed := nowIso,
    messages := [], virtual_files := [], virtual_file_history := [],
    metadata := { last_cleaned := none, connection_state := none } }

/-- `Chat.add_virtual_file` (session_manager.py lines 43-73): canonicalize the
path; when a current version exists with different content, push it onto the
history and trim the history to its last five entries; then unconditionally
overwrite the current version with a fresh timestamp. -/
def Chat.add_virtual_file (chat : Chat) (path content language : String)
    (nowMs : Nat) (nowIso : String) : Chat :=
  let base_name := canonicalName path
  let hist :=
    match dictGet chat.virtual_files base_name with
    | some current =>
      if content ≠ current.content then
        let h0 := (dictGet chat.virtual_file_history base_name).getD []
        let h1 := h0 ++ [{ content := current.content, timestamp := current.timestamp }]
        let h2 := if h1.length > 5 then h1.drop (h1.length - 5) else h1
        dictSet chat.virtual_file_history base_name h2
      else chat.virtual_file_history
    | none => chat.virtual_file_history
  { chat with
    virtual_files := dictSet chat.virtual_files base_name
      { content := content, language := language, timestamp := nowMs },
    virtual_file_history := hist,
    last_accessed := nowIso }

/-- Result of `Chat.get_virtual_file`: either the current version dict or a
history entry dict. -/
inductive FileLookup where
  | currentV : FileVersion → FileLookup
  | histV : HistEntry → FileLookup
  deriving Repr, DecidableEq

/-- `Chat.get_virtual_file` (session_manager.py lines 75-91). -/
def Chat.get_virtual_file (chat : Chat) (path : String) (version : Option Nat) :
    Option FileLookup :=
  let base_name := canonicalName path
  match version with
  | none => (dictGet chat.virtual_files base_name).map FileLookup.currentV
  | some v =>
    match dictGet chat.virtual_file_history base_name with
    | some history => (history[v]?).map FileLookup.histV
    | none => none

/-- `Chat.delete_virtual_file` (session_manager.py lines 93-100): both maps are
cleared only when the canonical name is present among the current files. -/
def Chat.delete_virtual_file (chat : Chat) (path : String) (nowIso : String) : Chat :=
  let base_name := canonicalName path
  let chat' :=
    if (dictGet chat.virtual_files base_name).isSome then
      { chat with virtual_files := dictDel chat.virtual_files base_name,
                  virtual_file_history := dictDel chat.virtual_file_history base_name }
    else chat
  { chat' with last_accessed := nowIso }

/-- `Chat.get_file_history` (session_manager.py lines 102-107). -/
def Chat.get_file_history (chat : Chat) (path : String) : List HistEntry :=
  (dictGet chat.virtual_file_history (canonicalName path)).getD []

/-- One entry of the `virtualFiles` dict of an inbound sync payload: the fields
`sync_chat_history` inspects, `none` when the key is missing. -/
structure RawFile where
  content : Option String
  language : Option String
  timestamp : Option Nat
  deriving Repr, DecidableEq

/-- The `history` payload of a `sync_chat_history` frame: each field is `none`
when the corresponding key is missing. -/
structure SyncHistory where
  name : Option String
  messages : Option (List Msg)
  virtualFiles : Option (List (String × RawFile))
  created_at : Option String
  last_accessed : Option String
  deriving Repr, DecidableEq

/-- The per-chat effect of `ChatManager.sync_chat_history` (session_manager.py
lines 133-166), applied once the target chat is in hand: messages are replaced
by the validated (text+sender present) entries, and the current files — but not
the version history — are replaced when a `virtualFiles` dict is supplied. -/
def Chat.applySync (chat : Chat) (history : SyncHistory) (nowIso : String) (nowMs : Nat) : Chat :=
  let formatted_messages :=
    match history.messages with
    | some msgs => msgs.filterMap (fun msg =>
        if msg.text.isSome && msg.sender.isSome then
          some { msg with timestamp := some (msg.timestamp.getD nowIso) }
        else none)
    | none => []
  let chat1 := { chat with messages := formatted_messages }
  let chat2 :=
    match history.virtualFiles with
    | some vf =>
      let validated := vf.foldl (fun acc (pf : String × RawFile) =>
        match pf.2.content with
        | some cont => dictSet acc (String.mk (pyBasename pf.1.data))
            ({ content := cont, language := pf.2.language.getD "solidity",
               timestamp := pf.2.timestamp.getD nowMs } : FileVersion)
        | none => acc) ([] : List (String × FileVersion))
      { chat1 with virtual_files := validated }
    | none => chat1
  { chat2 with created_at := history.created_at.getD nowIso,
               last_accessed := history.last_accessed.getD nowIso }

/-- `ChatManager`: `wallet_address -> {chat_id -> Chat}`, the outer dict as a
total function (absent wallet = empty inner dict, matching `.get(w, {})`). -/
structure ChatManager where
  chats : String → List (String × Chat)

/-- Python `name or default` for the chat display name (empty string is falsy). -/
def pyOrStr (s : Option String) (d : String) : String :=
  match s with
  | some n => if n = "" then d else n
  | none => d

/-- `ChatManager.create_chat` (session_manager.py lines 113-125). -/
def ChatManager.create_chat (m : ChatManager) (wallet chat_id : String)
    (name : Option String) (nowIso : String) : ChatManager × Chat :=
  match dictGet (m.chats wallet) chat_id with
  | some c => (m, c)
  | none =>
    let chat_name := pyOrStr name ("Chat " ++ String.mk (natDigits ((m.chats wallet).length + 1)))
    let chat := Chat.init chat_id chat_name wallet nowIso
    ({ chats := fun w => if w = wallet then dictSet (m.chats wallet) chat_id chat
                         else m.chats w }, chat)

/-- `ChatManager.get_chat`. -/
def ChatManager.get_chat (m : ChatManager) (wallet chat_id : String) : Option Chat :=
  dictGet (m.chats wallet) chat_id

/-- `ChatManager.sync_chat_history` (session_manager.py lines 127-166):
create the chat when absent, then apply the per-chat sync effect. -/
def ChatManager.sync_chat_history (m : ChatManager) (wallet chat_id : String)
    (history : SyncHistory) (nowIso : String) (nowMs : Nat) : ChatManager :=
  let m1 := if (m.get_chat wallet chat_id).isSome then m
            else (m.create_chat wallet chat_id history.name nowIso).1
  match m1.get_chat wallet chat_id with
  | none => m1
  | some chat =>
    let chat' := chat.applySync history nowIso nowMs
    { chats := fun w => if w = wallet then dictSet (m1.chats wallet) chat_id chat'
                        else m1.chats w }

/-- `ChatManager.delete_chat` (session_manager.py lines 204-208). -/
def ChatManager.delete_chat (m : ChatManager) (wallet chat_id : String) : ChatManager :=
  { chats := fun w => if w = wallet then dictDel (m.chats wallet) chat_id else m.chats w }

/-- `ChatManager.add_virtual_file_to_chat` (session_manager.py lines 181-187):
raises `ValueError` when the chat is absent. -/
def ChatManager.add_virtual_file_to_chat (m : ChatManager) (wallet chat_id path content language : String)
    (nowMs : Nat) (nowIso : String) : Except String ChatManager :=
  let touched := dictUpdate (m.chats wallet) chat_id
    (fun c => c.add_virtual_file path content language nowMs nowIso)
  match m.get_chat wallet chat_id with
  | some _ => Except.ok { chats := fun w => if w = wallet then touched else m.chats w }
  | none => Except.error ("Chat " ++ chat_id ++ " not found for wallet " ++ wallet)

/-- `ChatManager.get_virtual_file_from_chat` (session_manager.py lines 189-194). -/
def ChatManager.get_virtual_file_from_chat (m : ChatManager) (wallet chat_id path : String)
    (version : Option Nat) : Option FileLookup :=
  match m.get_chat wallet chat_id with
  | some chat => chat.get_virtual_file path version
  | none => none

/-- The per-chat effect of `clean_user_cache`: empty both file maps, mark the
metadata disconnected, keep the messages. -/
def cleanChat (c : Chat) (nowIso : String) : Chat :=
  { c with virtual_files := [], virtual_file_history := [],
           metadata := { last_cleaned := some nowIso,
                         connection_state := some "disconnected" } }

/-- One step of the `clean_user_cache` loop: `if chat_id := chat_info.get('id')`
(so an empty id is skipped by Python truthiness), then look the chat up and
mutate it in place when found. -/
def cleanFold (nowIso : String) (acc : List (String × Chat)) (cid : String) :
    List (String × Chat) :=
  if cid ≠ "" then
    match dictGet acc cid with
    | some _ => dictUpdate acc cid (fun c => cleanChat c nowIso)
    | none => acc
  else acc

/-- `ChatManager.clean_user_cache` (session_manager.py lines 217-244): snapshot
the owner's chat ids (the `id` fields of `to_dict`), then for each truthy id
look the chat up and clean it in place. -/
def ChatManager.clean_user_cache (m : ChatManager) (wallet : String) (nowIso : String) : ChatManager :=
  let ids := (m.chats wallet).map (fun e => e.2.chat_id)
  let cleaned := ids.foldl (cleanFold nowIso) (m.chats wallet)
  { chats := fun w => if w = wallet then cleaned else m.chats w }

/-- An extracted action (edit_actions.py / agent.py `parse_actions`): a dict
with `type` `"message"`, `"create_file"` (path, content) or `"edit_file"`
(path, `edit = {"replace": ...}`). -/
inductive AgentAction where
  | message : String → AgentAction
  | createFile : String → String → AgentAction
  | editFile : String → String → AgentAction
  deriving Repr, DecidableEq

/-- The loop state of `parse_actions`. -/
structure ParseState where
  in_code_block : Bool
  code_content : List Char
  is_suggestion_block : Bool
  actions : List AgentAction
  deriving Repr, DecidableEq

/-- The suggestion keywords of edit_actions.py line 27. -/
def suggestionKeywords : List (List Char) :=
  ["suggestion:".data, "idea:".data, "you could:".data,
   "consider:".data, "recommendation:".data, "proposal:".data]

/-- One iteration of the `parse_actions` line loop (edit_actions.py lines
25-76).  `editTarget` is `current_contract_context["file"]` (editing mode =
`isSome`), fixed for the whole pass. -/
def parseStep (editTarget : Option String) (st : ParseState) (line : List Char) : ParseState :=
  if !st.in_code_block
      && suggestionKeywords.any (fun kw => pyContains kw (line.map Char.toLower)) then
    { st with is_suggestion_block := true,
              actions := st.actions ++ [AgentAction.message (String.mk (pyStrip line))] }
  else if ("```solidity".data).isPrefixOf line then
    { st with in_code_block := true, code_content := [] }
  else if ("```".data).isPrefixOf line && st.in_code_block then
    let stripped := pyStrip st.code_content
    let acts :=
      if stripped ≠ [] then
        if st.is_suggestion_block then
          st.actions ++ [AgentAction.message (String.mk
            ("Example code:\n```solidity\n".data ++ stripped ++ "\n```".data))]
        else
          match editTarget with
          | some f => st.actions ++ [AgentAction.editFile f (String.mk stripped)]
          | none => st.actions ++
              [AgentAction.createFile (synthPath st.actions.length) (String.mk stripped)]
      else st.actions
    { st with in_code_block := false, is_suggestion_block := false, actions := acts }
  else if st.in_code_block then
    { st with code_content := st.code_content ++ line ++ ['\n'] }
  else if pyStrip line ≠ [] then
    { st with actions := st.actions ++ [AgentAction.message (String.mk (pyStrip line))] }
  else st

/-- Run `parse_actions` over `response.split('\n')` and return the final loop
state. -/
def parseRun (editTarget : Option String) (response : String) : ParseState :=
  (pySplitChar '\n' response.data).foldl (parseStep editTarget)
    { in_code_block := false, code_content := [], is_suggestion_block := false, actions := [] }

/-- `EditActions.parse_actions` / `Agent.parse_actions`: the extracted action
list. -/
def parse_actions (editTarget : Option String) (response : String) : List AgentAction :=
  (parseRun editTarget response).actions

/-- An inbound websocket frame: `message_data.get(...)` fields, `none` for a
missing key. -/
structure Frame where
  type : Option String
  content : String
  chat_id : Option String
  path : Option String
  version : Option Nat
  history : Option SyncHistory
  language : Option String
  suppress_response : Bool
  deriving Repr, DecidableEq

/-- An outbound frame (type and content; metadata elided). -/
structure OutFrame where
  type : String
  content : String
  deriving Repr, DecidableEq

/-- Python truthiness of an optional string (`None` and `""` are falsy). -/
def pyTruthyOpt (s : Option String) : Option String :=
  match s with
  | some v => if v = "" then none else some v
  | none => none

/-- Python `str(x)` of an optional string, `"None"` when absent. -/
def optStr (s : Option String) : String := s.getD "None"

/-- One iteration of the receive loop of `handle_websocket_connection`
(websocket_handlers.py lines 50-252): dispatch one parsed frame, returning the
emitted frames, the updated chat store, and whether the loop continues.  The
conversational collaborator (`agent.process_message`) is opaque and passed as
`agent`; `none` models a missing agent for the wallet. -/
def handleFrame (m : ChatManager) (wallet : String) (connChatId : Option String)
    (agent : Option (String → ChatManager → List OutFrame × ChatManager))
    (frame : Frame) (nowIso : String) (nowMs : Nat) :
    List OutFrame × ChatManager × Bool :=
  let message_type := frame.type.getD "message"
  let current_chat_id :=
    match pyTruthyOpt connChatId with
    | some c => some c
    | none => frame.chat_id
  if message_type = "sync_chat_history" ∨ message_type = "full_history_sync" then
    match frame.history, pyTruthyOpt current_chat_id with
    | some h, some cid =>
      let m1 := if message_type = "full_history_sync" ∧ (m.get_chat wallet cid).isSome
                then m.delete_chat wallet cid else m
      let m2 := m1.sync_chat_history wallet cid h nowIso nowMs
      ([⟨"chat_synced", "Chat history synced successfully for chat: " ++ cid⟩], m2, true)
    | _, _ =>
      ([⟨"error", "Error syncing chat history: Missing chat history or chat_id"⟩], m, true)
  else if message_type = "contexts_synced" then
    ([], m, true)
  else if message_type = "save_file" then
    match pyTruthyOpt frame.path with
    | none => ([⟨"error", "Error saving file: No path provided for file"⟩], m, true)
    | some p =>
      match current_chat_id.bind (fun cid => (m.get_chat wallet cid).map (fun _ => cid)) with
      | some cid =>
        let touched := dictUpdate (m.chats wallet) cid
          (fun c => c.add_virtual_file p frame.content (frame.language.getD "solidity") nowMs nowIso)
        ([⟨"file_saved", "File saved successfully: " ++ p⟩],
         { chats := fun w => if w = wallet then touched else m.chats w }, true)
      | none =>
        ([⟨"error", "Error saving file: Chat " ++ optStr current_chat_id
            ++ " not found for wallet " ++ wallet⟩], m, true)
  else if message_type = "get_file_version" then
    match pyTruthyOpt frame.path with
    | none => ([⟨"error", "Error getting file version: No path provided for file"⟩], m, true)
    | some p =>
      let file_data := (current_chat_id.bind (m.get_chat wallet ·)).bind
        (fun c => c.get_virtual_file p frame.version)
      match file_data with
      | some (FileLookup.currentV v) => ([⟨"file_version", v.content⟩], m, true)
      | some (FileLookup.histV e) => ([⟨"file_version", e.content⟩], m, true)
      | none => ([⟨"error", "File version not found: " ++ p⟩], m, true)
  else if message_type = "message" then
    let m1 :=
      match pyTruthyOpt current_chat_id with
      | some cid => if (m.get_chat wallet cid).isSome then m
                    else (m.create_chat wallet cid none nowIso).1
      | none => m
    match agent with
    | some ag =>
      let r := ag frame.content m1
      (r.1, r.2, true)
    | none => ([⟨"error", "Agent initialization failed"⟩], m1, true)
  else
    ([], m, true)

/-- The trimmed tail kept by the five-entry history bound: the last five
elements of a list. -/
def last5 (l : List HistEntry) : List HistEntry := l.drop (l.length - 5)

/-- A sequence of `put` calls to one path, each with a content and a fresh
timestamp. -/
def putSeq (chat : Chat) (path : String) (ps : List (String × Nat)) : Chat :=
  ps.foldl (fun c p => c.add_virtual_file path p.1 "solidity" p.2 "") chat

theorem dictGet_dictSet_self (d : List (String × α)) (k : String) (v : α) :
    dictGet (dictSet d k v) k = some v := by
  induction d with
  | nil => simp [dictGet, dictSet]
  | cons e rest ih =>
    obtain ⟨k', v'⟩ := e
    by_cases hk : k' = k <;> simp [dictGet, dictSet, hk, ih]

theorem dictGet_dictSet_ne (d : List (String × α)) (k q : String) (v : α) (h : k ≠ q) :
    dictGet (dictSet d k v) q = dictGet d q := by
  induction d with
  | nil => simp [dictGet, dictSet, h]
  | cons e rest ih =>
    obtain ⟨k', v'⟩ := e
    by_cases hk : k' = k
    · subst hk; simp [dictGet, dictSet, h]
    · simp [dictGet, dictSet, hk, ih]

theorem last5_length (l : List HistEntry) : (last5 l).length = min 5 l.length := by
  simp only [last5, List.length_drop]; omega

theorem last5_of_le (l : List HistEntry) (h : l.length ≤ 5) : last5 l = l := by
  unfold last5
  have h0 : l.length - 5 = 0 := by omega
  rw [h0, List.drop_zero]

theorem trim_eq_last5 (l : List HistEntry) :
    (if l.length > 5 then l.drop (l.length - 5) else l) = last5 l := by
  unfold last5
  split
  · rfl
  · next h =>
    have h0 : l.length - 5 = 0 := by omega
    rw [h0, List.drop_zero]

theorem last5_last5_append (a b : List HistEntry) :
    last5 (last5 a ++ b) = last5 (a ++ b) := by
  unfold last5
  rw [List.drop_append_eq_append_drop, List.drop_append_eq_append_drop, List.drop_drop]
  simp only [List.length_append, List.length_drop]
  congr 2 <;> omega

/-- The history entries a strictly-changing put sequence pushes: the starting
current version followed by every put except the last. -/
def priorEntries (v : HistEntry) : List (String × Nat) → List HistEntry
  | [] => []
  | p :: rest => v :: priorEntries ⟨p.1, p.2⟩ rest

theorem priorEntries_eq (l : List (String × Nat)) : ∀ v : HistEntry,
    priorEntries v l =
      match l with
      | [] => []
      | _ :: _ => v :: l.dropLast.map (fun p => (⟨p.1, p.2⟩ : HistEntry)) := by
  induction l with
  | nil => intro v; rfl
  | cons p rest ih =>
    intro v
    cases rest with
    | nil => simp [priorEntries]
    | cons q qs =>
      have e1 : priorEntries v (p :: q :: qs) = v :: priorEntries ⟨p.1, p.2⟩ (q :: qs) := rfl
      rw [e1, ih ⟨p.1, p.2⟩]
      simp [List.dropLast_cons₂]

theorem putSeq_hist_go (path : String) (ps : List (String × Nat)) :
    ∀ (chat : Chat) (v : FileVersion) (h : List HistEntry),
    dictGet chat.virtual_files (canonicalName path) = some v →
    (dictGet chat.virtual_file_history (canonicalName path)).getD [] = h →
    h.length ≤ 5 →
    List.Chain' (· ≠ ·) (v.content :: ps.map Prod.fst) →
    (dictGet (putSeq chat path ps).virtual_file_history (canonicalName path)).getD []
      = last5 (h ++ priorEntries ⟨v.content, v.timestamp⟩ ps) := by
  induction ps with
  | nil =>
    intro chat v h _ hh hlen _
    simpa [putSeq, priorEntries, hh] using (last5_of_le h hlen).symm
  | cons p rest ih =>
    intro chat v h hf hh hlen hch
    rw [List.map_cons, List.chain'_cons] at hch
    obtain ⟨hne, hch'⟩ := hch
    have hstep : putSeq chat path (p :: rest) =
        putSeq (chat.add_virtual_file path p.1 "solidity" p.2 "") path rest := rfl
    set c1 := chat.add_virtual_file path p.1 "solidity" p.2 "" with hc1
    have hf1 : dictGet c1.virtual_files (canonicalName path)
        = some ⟨p.1, "solidity", p.2⟩ := by
      simp only [hc1, Chat.add_virtual_file]
      exact dictGet_dictSet_self _ _ _
    have hh1 : (dictGet c1.virtual_file_history (canonicalName path)).getD []
        = last5 (h ++ [⟨v.content, v.timestamp⟩]) := by
      simp only [hc1, Chat.add_virtual_file, hf]
      rw [if_pos (Ne.symm hne), hh, trim_eq_last5, dictGet_dictSet_self]
      rfl
    have hlen1 : (last5 (h ++ [(⟨v.content, v.timestamp⟩ : HistEntry)])).length ≤ 5 := by
      rw [last5_length]; omega
    have hrec := ih c1 ⟨p.1, "solidity", p.2⟩ _ hf1 hh1 hlen1 hch'
    rw [hstep, hrec, last5_last5_append]
    simp [priorEntries, List.append_assoc]

/-- Claim C2: starting from a fresh chat, a sequence of `put` calls to one
path, each changing the content, leaves the file's version history equal to
the last five prior versions in order (a FIFO: the oldest entries are the ones
evicted), so its length is `min 5 (i - 1)` after `i` puts. -/
theorem C2_put_history_fifo (cid cname wallet nowIso path : String)
    (ps : List (String × Nat))
    (hch : List.Chain' (fun a b => a.1 ≠ b.1) ps) :
    Chat.get_file_history (putSeq (Chat.init cid cname wallet nowIso) path ps) path
      = last5 (ps.dropLast.map (fun p => (⟨p.1, p.2⟩ : HistEntry)))
    ∧ (Chat.get_file_history (putSeq (Chat.init cid cname wallet nowIso) path ps) path).length
      = min 5 (ps.length - 1) := by
  have hmain : Chat.get_file_history (putSeq (Chat.init cid cname wallet nowIso) path ps) path
      = last5 (ps.dropLast.map (fun p => (⟨p.1, p.2⟩ : HistEntry))) := by
    cases ps with
    | nil => rfl
    | cons p rest =>
      have hstep : putSeq (Chat.init cid cname wallet nowIso) path (p :: rest)
          = putSeq ((Chat.init cid cname wallet nowIso).add_virtual_file path p.1 "solidity" p.2 "")
              path rest := rfl
      set c1 := (Chat.init cid cname wallet nowIso).add_virtual_file path p.1 "solidity" p.2 ""
        with hc1
      have hf1 : dictGet c1.virtual_files (canonicalName path)
          = some ⟨p.1, "solidity", p.2⟩ := by
        simp only [hc1, Chat.add_virtual_file, Chat.init]
        exact dictGet_dictSet_self _ _ _
      have hh1 : (dictGet c1.virtual_file_history (canonicalName path)).getD [] = [] := rfl
      have hch1 : List.Chain' (· ≠ ·)
          ((⟨p.1, "solidity", p.2⟩ : FileVersion).content :: rest.map Prod.fst) := by
        have h2 : List.Chain' (· ≠ ·) ((p :: rest).map Prod.fst) :=
          (List.chain'_map Prod.fst).mpr hch
        simpa using h2
      have hrun := putSeq_hist_go path rest c1 ⟨p.1, "solidity", p.2⟩ [] hf1 hh1 (by simp) hch1
      simp only [Chat.get_file_history, hstep, hrun, List.nil_append]
      rw [priorEntries_eq]
      cases rest with
      | nil => rfl
      | cons q qs => simp [List.dropLast_cons₂]
  refine ⟨hmain, ?_⟩
  rw [hmain, last5_length, List.length_map, List.length_dropLast]

/-- Witness for C2: eight strictly-changing puts leave exactly the five most
recent prior versions, oldest first. -/
theorem C2_put_history_fifo_witness :
    List.Chain' (fun (a b : String × Nat) => a.1 ≠ b.1)
      [("a", 1), ("b", 2), ("c", 3), ("d", 4), ("e", 5), ("f", 6), ("g", 7), ("h", 8)]
    ∧ Chat.get_file_history
        (putSeq (Chat.init "c1" "Chat 1" "0xw" "t0") "contracts/Token.sol"
          [("a", 1), ("b", 2), ("c", 3), ("d", 4), ("e", 5), ("f", 6), ("g", 7), ("h", 8)])
        "contracts/Token.sol"
      = [⟨"c", 3⟩, ⟨"d", 4⟩, ⟨"e", 5⟩, ⟨"f", 6⟩, ⟨"g", 7⟩] := by
  refine ⟨by simp [List.chain'_cons], ?_⟩
  have h := C2_put_history_fifo "c1" "Chat 1" "0xw" "t0" "contracts/Token.sol"
    [("a", 1), ("b", 2), ("c", 3), ("d", 4), ("e", 5), ("f", 6), ("g", 7), ("h", 8)]
    (by simp [List.chain'_cons])
  rw [h.1]
  decide


theorem dictGet_eq_none (d : List (String × α)) (k : String)
    (h : k ∉ d.map Prod.fst) : dictGet d k = none := by
  induction d with
  | nil => rfl
  | cons e rest ih =>
    simp only [List.map_cons, List.mem_cons] at h
    push_neg at h
    obtain ⟨h1, h2⟩ := h
    simp only [dictGet]
    rw [if_neg (fun he => h1 he.symm)]
    exact ih h2

theorem dictGet_dictDel_self (d : List (String × α)) (k : String)
    (hnd : (d.map Prod.fst).Nodup) : dictGet (dictDel d k) k = none := by
  induction d with
  | nil => rfl
  | cons e rest ih =>
    obtain ⟨k', v'⟩ := e
    simp only [List.map_cons, List.nodup_cons] at hnd
    by_cases hk : k' = k
    · subst hk
      simp only [dictDel, if_pos rfl]
      exact dictGet_eq_none rest k' hnd.1
    · simp only [dictDel, if_neg hk, dictGet, if_neg hk]
      exact ih hnd.2

/-- Claim C4 counterexample: a `put` of identical content is not a no-op on the
stored state — the current version entry is rewritten with the fresh
timestamp, so the state after the second put differs from the state before. -/
theorem C4_counterexample :
    let c0 := (Chat.init "c1" "Chat 1" "0xw" "t0").add_virtual_file
        "contracts/Token.sol" "a" "solidity" 1 "t1"
    let c1 := c0.add_virtual_file "contracts/Token.sol" "a" "solidity" 2 "t2"
    c1.get_virtual_file "contracts/Token.sol" none
        ≠ c0.get_virtual_file "contracts/Token.sol" none
    ∧ c1.get_virtual_file "contracts/Token.sol" none
        = some (FileLookup.currentV ⟨"a", "solidity", 2⟩)
    ∧ c1.virtual_file_history = c0.virtual_file_history := by
  decide

/-- Claim C4, amended: a `put` whose content equals the current version's
content leaves the version history and every other file untouched and keeps
the same content, but rewrites the current entry with the put's language and a
fresh timestamp (the websocket handler still reports success). -/
theorem C4_put_identical_amended (chat : Chat) (path c lang : String)
    (tms : Nat) (tiso : String) (v : FileVersion)
    (hcur : dictGet chat.virtual_files (canonicalName path) = some v)
    (heq : v.content = c) :
    (chat.add_virtual_file path c lang tms tiso).virtual_file_history
        = chat.virtual_file_history
    ∧ dictGet (chat.add_virtual_file path c lang tms tiso).virtual_files
        (canonicalName path) = some ⟨c, lang, tms⟩
    ∧ (∀ q, q ≠ canonicalName path →
        dictGet (chat.add_virtual_file path c lang tms tiso).virtual_files q
          = dictGet chat.virtual_files q)
    ∧ (chat.add_virtual_file path c lang tms tiso).messages = chat.messages := by
  refine ⟨?_, ?_, ?_, rfl⟩
  · simp only [Chat.add_virtual_file, hcur]
    rw [if_neg]
    simp [heq]
  · simp only [Chat.add_virtual_file]
    exact dictGet_dictSet_self _ _ _
  · intro q hq
    simp only [Chat.add_virtual_file]
    exact dictGet_dictSet_ne _ _ _ _ (fun he => hq he.symm)

/-- Witness for the amended C4. -/
theorem C4_put_identical_amended_witness :
    dictGet ((Chat.init "c1" "Chat 1" "0xw" "t0").add_virtual_file
        "contracts/Token.sol" "a" "solidity" 1 "t1").virtual_files
        (canonicalName "contracts/Token.sol")
      = some ⟨"a", "solidity", 1⟩
    ∧ (((Chat.init "c1" "Chat 1" "0xw" "t0").add_virtual_file
        "contracts/Token.sol" "a" "solidity" 1 "t1").add_virtual_file
        "contracts/Token.sol" "a" "solidity" 2 "t2").virtual_file_history
      = ((Chat.init "c1" "Chat 1" "0xw" "t0").add_virtual_file
        "contracts/Token.sol" "a" "solidity" 1 "t1").virtual_file_history := by
  refine ⟨by decide, ?_⟩
  exact (C4_put_identical_amended
    ((Chat.init "c1" "Chat 1" "0xw" "t0").add_virtual_file
      "contracts/Token.sol" "a" "solidity" 1 "t1")
    "contracts/Token.sol" "a" "solidity" 2 "t2" ⟨"a", "solidity", 1⟩
    (by decide) (by decide)).1


/-- Claim C5 counterexample: `sync_chat_history` replaces the current files but
not the version history, so a history entry can be orphaned; `delete` on the
orphaned name is then a no-op and the entry stays retrievable, contradicting
"after delete no history entries for that canonical name remain retrievable".
The chain below is the reachable sequence: two puts, a resync with an empty
`virtualFiles` dict, then the delete. -/
theorem C5_counterexample :
    Chat.get_virtual_file
        (((((Chat.init "c1" "Chat 1" "0xw" "t0").add_virtual_file
          "contracts/Token_1.sol" "a" "solidity" 1 "t1").add_virtual_file
          "contracts/Token_2.sol" "b" "solidity" 2 "t2").applySync
          ⟨none, none, some [], none, none⟩ "t3" 3).delete_virtual_file
          "contracts/Token.sol" "t4")
        "contracts/Token.sol" (some 0)
      = some (FileLookup.histV ⟨"a", 1⟩) := by
  decide

/-- Claim C5, amended: when the canonical name has a current version, `delete`
removes both the current version and the whole history; when it has none,
`delete` is a no-op that leaves both maps unchanged — so history entries
orphaned by a resync survive the delete.  Either way it never fails. -/
theorem C5_delete_amended (chat : Chat) (path tiso : String)
    (hndf : (chat.virtual_files.map Prod.fst).Nodup)
    (hndh : (chat.virtual_file_history.map Prod.fst).Nodup) :
    ((dictGet chat.virtual_files (canonicalName path)).isSome = true →
      dictGet (chat.delete_virtual_file path tiso).virtual_files
          (canonicalName path) = none
      ∧ dictGet (chat.delete_virtual_file path tiso).virtual_file_history
          (canonicalName path) = none)
    ∧ ((dictGet chat.virtual_files (canonicalName path)).isSome = false →
      (chat.delete_virtual_file path tiso).virtual_files = chat.virtual_files
      ∧ (chat.delete_virtual_file path tiso).virtual_file_history
          = chat.virtual_file_history) := by
  constructor
  · intro hcur
    simp only [Chat.delete_virtual_file, if_pos hcur]
    exact ⟨dictGet_dictDel_self _ _ hndf, dictGet_dictDel_self _ _ hndh⟩
  · intro hcur
    simp [Chat.delete_virtual_file, hcur]

/-- Witness for the amended C5: both the present and the absent case at
concrete inputs. -/
theorem C5_delete_amended_witness :
    (dictGet ((Chat.init "c1" "Chat 1" "0xw" "t0").add_virtual_file
        "contracts/Token.sol" "a" "solidity" 1 "t1").virtual_files
        (canonicalName "contracts/Token.sol")).isSome = true
    ∧ dictGet (((Chat.init "c1" "Chat 1" "0xw" "t0").add_virtual_file
        "contracts/Token.sol" "a" "solidity" 1 "t1").delete_virtual_file
        "contracts/Token.sol" "t2").virtual_files (canonicalName "contracts/Token.sol") = none
    ∧ (dictGet (Chat.init "c2" "Chat 2" "0xw" "t0").virtual_files
        (canonicalName "contracts/Token.sol")).isSome = false
    ∧ ((Chat.init "c2" "Chat 2" "0xw" "t0").delete_virtual_file
        "contracts/Token.sol" "t1").virtual_files
        = (Chat.init "c2" "Chat 2" "0xw" "t0").virtual_files := by
  refine ⟨by decide, ?_, by decide, ?_⟩
  · exact ((C5_delete_amended ((Chat.init "c1" "Chat 1" "0xw" "t0").add_virtual_file
      "contracts/Token.sol" "a" "solidity" 1 "t1") "contracts/Token.sol" "t2"
      (by decide) (by decide)).1 (by decide)).1
  · exact ((C5_delete_amended (Chat.init "c2" "Chat 2" "0xw" "t0")
      "contracts/Token.sol" "t1" (by decide) (by decide)).2 (by decide)).1

/-- Claim C6: a put under `contracts/Token_999.sol` and a get under
`contracts/Token_other.sol` resolve to the same logical file — both paths
canonicalize to `Token.sol`, and the get returns exactly the version just
written. -/
theorem C6_canonical_put_get (chat : Chat) (c lang : String) (tms : Nat) (tiso : String) :
    (chat.add_virtual_file "contracts/Token_999.sol" c lang tms tiso).get_virtual_file
        "contracts/Token_other.sol" none
      = some (FileLookup.currentV ⟨c, lang, tms⟩)
    ∧ canonicalName "contracts/Token_999.sol" = "Token.sol"
    ∧ canonicalName "contracts/Token_other.sol" = "Token.sol" := by
  refine ⟨?_, by decide, by decide⟩
  have e1 : canonicalName "contracts/Token_999.sol" = "Token.sol" := by decide
  have e2 : canonicalName "contracts/Token_other.sol" = "Token.sol" := by decide
  simp only [Chat.get_virtual_file, Chat.add_virtual_file, e1, e2]
  rw [dictGet_dictSet_self]
  rfl


theorem applySync_messages (chat : Chat) (h : SyncHistory) (nowIso : String) (nowMs : Nat) :
    (chat.applySync h nowIso nowMs).messages
      = match h.messages with
        | some msgs => msgs.filterMap (fun msg =>
            if msg.text.isSome && msg.sender.isSome then
              some { msg with timestamp := some (msg.timestamp.getD nowIso) }
            else none)
        | none => [] := by
  obtain ⟨nm, ms, vf, ca, la⟩ := h
  cases vf <;> rfl

theorem sync_get_chat (m : ChatManager) (wallet cid : String) (h : SyncHistory)
    (nowIso : String) (nowMs : Nat) :
    ∃ chat0 : Chat, (m.sync_chat_history wallet cid h nowIso nowMs).get_chat wallet cid
      = some (chat0.applySync h nowIso nowMs) := by
  unfold ChatManager.sync_chat_history
  by_cases hx : (m.get_chat wallet cid).isSome
  · obtain ⟨c, hc⟩ := Option.isSome_iff_exists.mp hx
    have hc' : dictGet (m.chats wallet) cid = some c := hc
    refine ⟨c, ?_⟩
    simp [ChatManager.get_chat, hc', dictGet_dictSet_self]
  · rw [Bool.not_eq_true] at hx
    have hnone : dictGet (m.chats wallet) cid = none := by
      cases hget : m.get_chat wallet cid
      · exact hget
      · rw [hget] at hx; simp at hx
    refine ⟨Chat.init cid
      (pyOrStr h.name ("Chat " ++ String.mk (natDigits ((m.chats wallet).length + 1))))
      wallet nowIso, ?_⟩
    simp [ChatManager.get_chat, ChatManager.create_chat, hnone, dictGet_dictSet_self]

/-- Claim C8: `sync_chat_history` keeps an imported message only when it has
both `text` and `sender`; with one well-formed message and one missing `text`
the resulting chat holds exactly the well-formed one (with its timestamp
defaulted), and the sync as a whole succeeds. -/
theorem C8_sync_drops_malformed (m : ChatManager) (wallet cid : String)
    (h : SyncHistory) (m1 m2 : Msg) (nowIso : String) (nowMs : Nat)
    (hmsgs : h.messages = some [m1, m2])
    (h1t : m1.text.isSome = true) (h1s : m1.sender.isSome = true)
    (h2t : m2.text = none) :
    ((m.sync_chat_history wallet cid h nowIso nowMs).get_chat wallet cid).map Chat.messages
      = some [{ m1 with timestamp := some (m1.timestamp.getD nowIso) }] := by
  obtain ⟨chat0, hchat⟩ := sync_get_chat m wallet cid h nowIso nowMs
  rw [hchat]
  simp only [Option.map]
  rw [applySync_messages, hmsgs]
  simp [List.filterMap, h1t, h1s, h2t]


/-- Witness for C8: one well-formed and one text-less message, on an empty
store. -/
theorem C8_sync_drops_malformed_witness :
    Option.map Chat.messages
      ((ChatManager.sync_chat_history ⟨fun _ => []⟩ "0xw" "c1"
        ⟨some "Chat 1",
         some [⟨some "hello", some "user", some "ts1"⟩, ⟨none, some "ai", none⟩],
         none, none, none⟩ "t0" 0).get_chat "0xw" "c1")
      = some [⟨some "hello", some "user", some "ts1"⟩] := by
  have hw := C8_sync_drops_malformed (⟨fun _ => []⟩ : ChatManager) "0xw" "c1"
    ⟨some "Chat 1",
     some [⟨some "hello", some "user", some "ts1"⟩, ⟨none, some "ai", none⟩],
     none, none, none⟩
    ⟨some "hello", some "user", some "ts1"⟩ ⟨none, some "ai", none⟩ "t0" 0
    rfl rfl rfl rfl
  simpa using hw

theorem cleanFold_skip (nowIso : String) (ids : List String) :
    ∀ (acc : List (String × Chat)) (k : String) (c : Chat), k ∉ ids →
    ids.foldl (cleanFold nowIso) ((k, c) :: acc) = (k, c) :: ids.foldl (cleanFold nowIso) acc := by
  induction ids with
  | nil => intro acc k c _; rfl
  | cons cid rest ih =>
    intro acc k c hk
    rw [List.mem_cons] at hk
    push_neg at hk
    obtain ⟨hk1, hk2⟩ := hk
    have hstep : cleanFold nowIso ((k, c) :: acc) cid = (k, c) :: cleanFold nowIso acc cid := by
      unfold cleanFold
      by_cases hcid : cid = ""
      · simp [hcid]
      · simp only [ne_eq, hcid, not_false_iff, if_true]
        have hget : dictGet ((k, c) :: acc) cid = dictGet acc cid := by
          simp only [dictGet]
          rw [if_neg hk1]
        rw [hget]
        cases hcase : dictGet acc cid with
        | none => rfl
        | some v =>
          show dictUpdate ((k, c) :: acc) cid (fun c => cleanChat c nowIso)
              = (k, c) :: dictUpdate acc cid (fun c => cleanChat c nowIso)
          conv_lhs => unfold dictUpdate
          rw [if_neg hk1]
    rw [List.foldl_cons, List.foldl_cons, hstep, ih _ _ _ hk2]

theorem clean_fold_map (nowIso : String) :
    ∀ (l : List (String × Chat)),
    (∀ e ∈ l, e.1 = e.2.chat_id) →
    (l.map Prod.fst).Nodup →
    (∀ e ∈ l, e.1 ≠ "") →
    (l.map (fun e => e.2.chat_id)).foldl (cleanFold nowIso) l
      = l.map (fun e => (e.1, cleanChat e.2 nowIso)) := by
  intro l
  induction l with
  | nil => intro _ _ _; rfl
  | cons e tl ih =>
    intro hid hnd hne
    obtain ⟨k, c⟩ := e
    have hkid : k = c.chat_id := hid (k, c) (List.mem_cons_self _ _)
    have hkne : k ≠ "" := hne (k, c) (List.mem_cons_self _ _)
    simp only [List.map_cons, List.nodup_cons] at hnd
    have hids : tl.map (fun e => e.2.chat_id) = tl.map Prod.fst := by
      apply List.map_congr_left
      intro a ha
      exact (hid a (List.mem_cons_of_mem _ ha)).symm
    have hstep : cleanFold nowIso ((k, c) :: tl) k
        = (k, cleanChat c nowIso) :: tl := by
      unfold cleanFold
      rw [if_pos hkne]
      have hg : dictGet ((k, c) :: tl) k = some c := by
        simp [dictGet]
      rw [hg]
      show dictUpdate ((k, c) :: tl) k (fun c => cleanChat c nowIso) = _
      unfold dictUpdate
      rw [if_pos rfl]
    simp only [List.map_cons, List.foldl_cons]
    rw [← hkid, hstep, hids, cleanFold_skip nowIso _ tl k (cleanChat c nowIso) hnd.1]
    congr 1
    rw [← hids]
    exact ih (fun a ha => hid a (List.mem_cons_of_mem _ ha)) hnd.2
      (fun a ha => hne a (List.mem_cons_of_mem _ ha))


/-- Claim C9: under the store invariants maintained by the program (each chat
is keyed by its own nonempty `chat_id`, keys unique), `clean_user_cache`
replaces every chat of the owner by its cleaned copy — current files and the
whole version history emptied, metadata marked disconnected — while the
message sequence of each chat is untouched. -/
theorem C9_cleanup_clears_files_keeps_messages (m : ChatManager) (wallet nowIso : String)
    (hid : ∀ e ∈ m.chats wallet, Prod.fst e = (Prod.snd e).chat_id)
    (hnd : ((m.chats wallet).map Prod.fst).Nodup)
    (hne : ∀ e ∈ m.chats wallet, Prod.fst e ≠ "") :
    (m.clean_user_cache wallet nowIso).chats wallet
      = (m.chats wallet).map (fun e => (e.1, cleanChat e.2 nowIso))
    ∧ ∀ c : Chat,
        (cleanChat c nowIso).messages = c.messages
        ∧ (cleanChat c nowIso).virtual_files = []
        ∧ (cleanChat c nowIso).virtual_file_history = []
        ∧ (cleanChat c nowIso).metadata.connection_state = some "disconnected" := by
  constructor
  · show (if wallet = wallet then _ else _) = _
    rw [if_pos rfl]
    exact clean_fold_map nowIso (m.chats wallet) hid hnd hne
  · intro c
    exact ⟨rfl, rfl, rfl, rfl⟩

/-- Witness for C9: a two-chat owner, one chat holding a file with history and
two messages. -/
theorem C9_cleanup_witness :
    ((⟨fun w => if w = "0xw" then
        [("c1", ((Chat.init "c1" "Chat 1" "0xw" "t0").add_virtual_file
            "contracts/Token_1.sol" "a" "solidity" 1 "t1").add_virtual_file
            "contracts/Token_2.sol" "b" "solidity" 2 "t2"),
         ("c2", { Chat.init "c2" "Chat 2" "0xw" "t0" with
                  messages := [⟨some "hi", some "user", some "ts"⟩] })]
      else []⟩ : ChatManager).clean_user_cache "0xw" "t9").chats "0xw"
      = [("c1", cleanChat (((Chat.init "c1" "Chat 1" "0xw" "t0").add_virtual_file
            "contracts/Token_1.sol" "a" "solidity" 1 "t1").add_virtual_file
            "contracts/Token_2.sol" "b" "solidity" 2 "t2") "t9"),
         ("c2", cleanChat { Chat.init "c2" "Chat 2" "0xw" "t0" with
                  messages := [⟨some "hi", some "user", some "ts"⟩] } "t9")] := by
  have hw := (C9_cleanup_clears_files_keeps_messages
    (⟨fun w => if w = "0xw" then
        [("c1", ((Chat.init "c1" "Chat 1" "0xw" "t0").add_virtual_file
            "contracts/Token_1.sol" "a" "solidity" 1 "t1").add_virtual_file
            "contracts/Token_2.sol" "b" "solidity" 2 "t2"),
         ("c2", { Chat.init "c2" "Chat 2" "0xw" "t0" with
                  messages := [⟨some "hi", some "user", some "ts"⟩] })]
      else []⟩ : ChatManager) "0xw" "t9" (by decide) (by decide) (by decide)).1
  simpa using hw


/-- Claim C1: on a single solidity fence whose body is `contract A{}` and no
suggestion line, the extractor yields exactly one action — an edit of the
currently bound file when a contract is bound (editing mode), else a create at
the freshly synthesized path `contracts/Contract_0.sol`; nothing else is
emitted. -/
theorem C1_single_block_one_action (f : String) :
    parse_actions (some f) "```solidity\ncontract A{}\n```"
      = [AgentAction.editFile f "contract A{}"]
    ∧ parse_actions none "```solidity\ncontract A{}\n```"
      = [AgentAction.createFile "contracts/Contract_0.sol" "contract A{}"]
    ∧ "contracts/Contract_0.sol" = synthPath 0 := by
  refine ⟨rfl, by decide, by decide⟩

/-- Claim C7: a suggestion line followed by a solidity fence, with no bound
contract (editingMode = false), yields exactly two message actions — the
suggestion line and the code wrapped as an example — and never a create or
edit; the suggestion flag is reset after the fence closes. -/
theorem C7_suggestion_two_messages :
    parseRun none "Suggestion: try this\n```solidity\ncontract A{}\n```\n"
      = { in_code_block := false, code_content := "contract A{}\n".data,
          is_suggestion_block := false,
          actions := [AgentAction.message "Suggestion: try this",
                      AgentAction.message "Example code:\n```solidity\ncontract A{}\n```"] } := by
  decide


/-- Claim C3 counterexample: a frame of unrecognized kind `"bogus_kind"` makes
the dispatch loop emit no frame at all — in particular no error frame naming
the kind — while the connection stays open (the loop continues). -/
theorem C3_counterexample :
    (handleFrame ⟨fun _ => []⟩ "0xabc" none none
      ⟨some "bogus_kind", "", none, none, none, none, none, false⟩ "t0" 0).1 = []
    ∧ ¬ (∃ fr ∈ (handleFrame ⟨fun _ => []⟩ "0xabc" none none
        ⟨some "bogus_kind", "", none, none, none, none, none, false⟩ "t0" 0).1,
        fr.type = "error")
    ∧ (handleFrame ⟨fun _ => []⟩ "0xabc" none none
      ⟨some "bogus_kind", "", none, none, none, none, none, false⟩ "t0" 0).2.2 = true := by
  refine ⟨rfl, ?_, rfl⟩
  rintro ⟨fr, hfr, -⟩
  simp only [show (handleFrame ⟨fun _ => []⟩ "0xabc" none none
    ⟨some "bogus_kind", "", none, none, none, none, none, false⟩ "t0" 0).1 = [] from rfl]
    at hfr
  exact (List.not_mem_nil fr) hfr

/-- Claim C3, amended: a frame whose kind is not one of the recognized dispatch
types is silently ignored — the router emits no frame (no error frame either),
leaves the store untouched, and the connection stays open. -/
theorem C3_unrecognized_amended (m : ChatManager) (wallet : String)
    (connChatId : Option String)
    (agent : Option (String → ChatManager → List OutFrame × ChatManager))
    (frame : Frame) (nowIso : String) (nowMs : Nat) (t : String)
    (ht : frame.type = some t)
    (hrec : t ∉ ["sync_chat_history", "full_history_sync", "contexts_synced",
                 "save_file", "get_file_version", "message"]) :
    handleFrame m wallet connChatId agent frame nowIso nowMs = ([], m, true) := by
  simp only [List.mem_cons, List.not_mem_nil, or_false, not_or] at hrec
  obtain ⟨h1, h2, h3, h4, h5, h6⟩ := hrec
  unfold handleFrame
  rw [ht]
  simp only [Option.getD_some]
  rw [if_neg (not_or.mpr ⟨h1, h2⟩), if_neg h3, if_neg h4, if_neg h5, if_neg h6]

/-- Witness for the amended C3. -/
theorem C3_unrecognized_amended_witness :
    (⟨some "bogus_kind", "", none, none, none, none, none, false⟩ : Frame).type
        = some "bogus_kind"
    ∧ "bogus_kind" ∉ ["sync_chat_history", "full_history_sync", "contexts_synced",
                      "save_file", "get_file_version", "message"]
    ∧ handleFrame ⟨fun _ => []⟩ "0xabc" none none
        ⟨some "bogus_kind", "", none, none, none, none, none, false⟩ "t0" 0
      = ([], ⟨fun _ => []⟩, true) :=
  ⟨rfl, by decide,
   C3_unrecognized_amended ⟨fun _ => []⟩ "0xabc" none none
     ⟨some "bogus_kind", "", none, none, none, none, none, false⟩ "t0" 0
     "bogus_kind" rfl (by decide)⟩


theorem pyRemoveSol_cons_ne (c : Char) (l : List Char) (h : c ≠ '.') :
    pyRemoveSol (c :: l) = c :: pyRemoveSol l := by
  rcases l with _ | ⟨a, _ | ⟨b, _ | ⟨d, tl⟩⟩⟩
  · rfl
  · rfl
  · rfl
  · show (if c = '.' ∧ a = 's' ∧ b = 'o' ∧ d = 'l' then pyRemoveSol tl
          else c :: pyRemoveSol (a :: b :: d :: tl)) = _
    rw [if_neg (fun hx => h hx.1)]

theorem pyRemoveSol_append (l : List Char) (h : ∀ c ∈ l, c ≠ '.') :
    pyRemoveSol (l ++ ".sol".data) = l := by
  induction l with
  | nil => decide
  | cons c tl ih =>
    have hc : c ≠ '.' := h c (List.mem_cons_self _ _)
    have htl := ih (fun x hx => h x (List.mem_cons_of_mem _ hx))
    rw [List.cons_append, pyRemoveSol_cons_ne c _ hc, htl]


theorem digitChar_mem_digits (n : Nat) :
    digitChar n ∈ (['0', '1', '2', '3', '4', '5', '6', '7', '8', '9'] : List Char) := by
  unfold digitChar
  split <;> simp

theorem natDigitsAux_mem (fuel : Nat) : ∀ (n : Nat) (acc : List Char) (c : Char),
    c ∈ natDigitsAux fuel n acc →
    c ∈ (['0', '1', '2', '3', '4', '5', '6', '7', '8', '9'] : List Char) ∨ c ∈ acc := by
  induction fuel with
  | zero => intro n acc c hc; exact Or.inr hc
  | succ fuel ih =>
    intro n acc c hc
    unfold natDigitsAux at hc
    split at hc
    · rcases List.mem_cons.mp hc with h | h
      · exact Or.inl (h ▸ digitChar_mem_digits n)
      · exact Or.inr h
    · rcases ih (n / 10) (digitChar (n % 10) :: acc) c hc with h | h
      · exact Or.inl h
      · rcases List.mem_cons.mp h with h2 | h2
        · exact Or.inl (h2 ▸ digitChar_mem_digits (n % 10))
        · exact Or.inr h2

theorem natDigits_safe (n : Nat) (c : Char) (hc : c ∈ natDigits n) :
    c ≠ '/' ∧ c ≠ '.' ∧ c ≠ '_' := by
  have h : c ∈ (['0', '1', '2', '3', '4', '5', '6', '7', '8', '9'] : List Char) := by
    rcases natDigitsAux_mem (n + 1) n [] c hc with h | h
    · exact h
    · simp at h
  fin_cases h <;> exact ⟨by decide, by decide, by decide⟩

theorem foldl_basename_no_slash (l : List Char) :
    ∀ acc : List Char, (∀ c ∈ l, c ≠ '/') →
    l.foldl (fun acc c => if c = '/' then [] else acc ++ [c]) acc = acc ++ l := by
  induction l with
  | nil => intro acc _; simp
  | cons c rest ih =>
    intro acc h
    rw [List.foldl_cons, if_neg (h c (List.mem_cons_self _ _))]
    rw [ih (acc ++ [c]) (fun x hx => h x (List.mem_cons_of_mem _ hx))]
    simp

theorem pyBasename_synthPath (k : Nat) :
    pyBasename (synthPath k).data = "Contract_".data ++ (natDigits k ++ ".sol".data) := by
  have h1 : (synthPath k).data
      = "contracts/".data ++ ("Contract_".data ++ (natDigits k ++ ".sol".data)) := by
    show "contracts/Contract_".data ++ natDigits k ++ ".sol".data = _
    rw [show "contracts/Contract_".data = "contracts/".data ++ "Contract_".data from by decide]
    simp [List.append_assoc]
  unfold pyBasename
  rw [h1, List.foldl_append]
  rw [show List.foldl (fun acc c => if c = '/' then [] else acc ++ [c]) [] "contracts/".data
      = [] from by decide]
  rw [foldl_basename_no_slash _ [] ?hns]
  · rw [List.nil_append]
  case hns =>
    intro c hc
    rcases List.mem_append.mp hc with h | h
    · exact (show ∀ x ∈ "Contract_".data, x ≠ '/' from by decide) c h
    · rcases List.mem_append.mp h with h2 | h2
      · exact (natDigits_safe k c h2).1
      · exact (show ∀ x ∈ ".sol".data, x ≠ '/' from by decide) c h2

theorem beforeUnderscore_synthPath (k : Nat) :
    beforeUnderscore ("Contract_".data ++ natDigits k) = "Contract".data := by
  simp [beforeUnderscore, List.takeWhile_cons]

/-- Every synthesized create path collapses to the single canonical name
`Contract.sol`. -/
theorem canonicalName_synthPath (k : Nat) :
    canonicalName (synthPath k) = "Contract.sol" := by
  unfold canonicalName
  rw [pyBasename_synthPath]
  rw [show "Contract_".data ++ (natDigits k ++ ".sol".data)
      = ("Contract_".data ++ natDigits k) ++ ".sol".data from by simp [List.append_assoc]]
  rw [pyRemoveSol_append _ ?hdot]
  · rw [beforeUnderscore_synthPath]
    decide
  case hdot =>
    intro c hc
    rcases List.mem_append.mp hc with h | h
    · exact (show ∀ x ∈ "Contract_".data, x ≠ '.' from by decide) c h
    · exact (natDigits_safe k c h).2.1


theorem parseStep_actions_cases (e : Option String) (st : ParseState) (line : List Char) :
    (parseStep e st line).actions = st.actions
    ∨ (∃ s, (parseStep e st line).actions = st.actions ++ [AgentAction.message s])
    ∨ (∃ f s, (parseStep e st line).actions = st.actions ++ [AgentAction.editFile f s])
    ∨ (∃ s, (parseStep e st line).actions
        = st.actions ++ [AgentAction.createFile (synthPath st.actions.length) s]) := by
  unfold parseStep
  repeat' split
  all_goals try simp
  all_goals (split <;> simp)
  all_goals assumption

theorem foldl_createPaths (e : Option String) (lines : List (List Char)) :
    ∀ st : ParseState,
    (∀ a ∈ st.actions, ∀ p c, a = AgentAction.createFile p c → ∃ k, p = synthPath k) →
    ∀ a ∈ (lines.foldl (parseStep e) st).actions, ∀ p c,
      a = AgentAction.createFile p c → ∃ k, p = synthPath k := by
  induction lines with
  | nil => intro st hst; exact hst
  | cons l rest ih =>
    intro st hst
    rw [List.foldl_cons]
    refine ih (parseStep e st l) ?_
    rcases parseStep_actions_cases e st l with hcase | ⟨s, hcase⟩ | ⟨f, s, hcase⟩ | ⟨s, hcase⟩ <;>
      rw [hcase] <;> intro a ha p c haeq
    · exact hst a ha p c haeq
    · rcases List.mem_append.mp ha with h | h
      · exact hst a h p c haeq
      · rw [List.mem_singleton] at h
        subst h
        exact absurd haeq (by simp)
    · rcases List.mem_append.mp ha with h | h
      · exact hst a h p c haeq
      · rw [List.mem_singleton] at h
        subst h
        exact absurd haeq (by simp)
    · rcases List.mem_append.mp ha with h | h
      · exact hst a h p c haeq
      · rw [List.mem_singleton] at h
        subst h
        injection haeq with hp hc
        exact ⟨st.actions.length, hp.symm⟩

/-- Claim C10: every path the extractor synthesizes for a create action has the
form `contracts/Contract_{k}.sol`; every such path canonicalizes to
`Contract.sol`; so successive create actions write the same logical file, the
later application overwriting the earlier as the current version. -/
theorem C10_create_paths_collapse :
    (∀ (e : Option String) (response : String) (a : AgentAction),
      a ∈ parse_actions e response →
      ∀ p c, a = AgentAction.createFile p c → ∃ k, p = synthPath k)
    ∧ (∀ k, canonicalName (synthPath k) = "Contract.sol")
    ∧ (∀ (chat : Chat) (k1 k2 j : Nat) (c1 c2 l1 l2 i1 i2 : String) (t1 t2 : Nat),
      ((chat.add_virtual_file (synthPath k1) c1 l1 t1 i1).add_virtual_file
          (synthPath k2) c2 l2 t2 i2).get_virtual_file (synthPath j) none
        = some (FileLookup.currentV ⟨c2, l2, t2⟩)) := by
  refine ⟨?_, canonicalName_synthPath, ?_⟩
  · intro e response a ha p c haeq
    exact foldl_createPaths e (pySplitChar '\n' response.data)
      ⟨false, [], false, []⟩ (by intro a ha; simp at ha) a ha p c haeq
  · intro chat k1 k2 j c1 c2 l1 l2 i1 i2 t1 t2
    simp only [Chat.get_virtual_file, Chat.add_virtual_file,
      canonicalName_synthPath]
    rw [dictGet_dictSet_self]
    rfl

/-- Witness for C10: the first create action of a two-block extraction gets
path `contracts/Contract_0.sol`, which is `synthPath 0` and canonicalizes to
`Contract.sol`; applying two creates leaves the second content current. -/
theorem C10_create_paths_collapse_witness :
    AgentAction.createFile "contracts/Contract_0.sol" "contract A{}"
        ∈ parse_actions none "```solidity\ncontract A{}\n```"
    ∧ (∃ k, "contracts/Contract_0.sol" = synthPath k)
    ∧ canonicalName (synthPath 12) = "Contract.sol"
    ∧ Chat.get_virtual_file
        (Chat.add_virtual_file
          ((Chat.init "c1" "Chat 1" "0xw" "t0").add_virtual_file (synthPath 0) "a" "solidity" 1 "t1")
          (synthPath 1) "b" "solidity" 2 "t2")
        (synthPath 5) none = some (FileLookup.currentV ⟨"b", "solidity", 2⟩) := by
  refine ⟨by decide, ?_, C10_create_paths_collapse.2.1 12, ?_⟩
  · exact C10_create_paths_collapse.1 none "```solidity\ncontract A{}\n```"
      (AgentAction.createFile "contracts/Contract_0.sol" "contract A{}")
      (by decide) "contracts/Contract_0.sol" "contract A{}" rfl
  · exact C10_create_paths_collapse.2.2 (Chat.init "c1" "Chat 1" "0xw" "t0")
      0 1 5 "a" "b" "solidity" "solidity" "t1" "t2" 1 2
